import Mathlib

/-!
Verification of the record access layer of the coffee-journal server
(`src/server/storage.ts`, class `FirestoreStorage`), shallowly embedded in
Lean.

The document store is modelled as an association list of document ids and
raw stored documents, in the order the store's snapshot enumerates them.
JavaScript numbers are modelled as `Rat`; a stored field that may hold a
non-number is modelled by `JsVal`.  `Array.prototype.sort` with a
consistent comparator `cmp` is modelled by Mathlib's stable
`List.insertionSort` over the relation `cmp a b ≤ 0`: for a total preorder
the stable-sorted permutation is unique, so any stable sort is a faithful
model of the (stability-guaranteeing) JavaScript sort.
-/

/-- A JavaScript value stored in a rating field: a number, a string, or
absent/undefined.  `typeof v === 'number'` corresponds to the `num`
constructor. -/
inductive JsVal where
  | num (q : Rat)
  | str (s : String)
  | undef
deriving DecidableEq, Repr

/-- The stored `orderDate` field as seen by the sort comparator
(`storage.ts` lines 61-65): a falsy value (`missing`), a Firestore
`Timestamp` with a `toDate` method (`timestamp`, carrying its epoch
milliseconds), or a date value/string that `new Date(d).getTime()` parses
to `ms` (`dateString`).  Strings whose parse yields `NaN` are outside this
model. -/
inductive DateVal where
  | missing
  | timestamp (ms : Int)
  | dateString (ms : Int)
deriving DecidableEq, Repr

/-- A raw document of the `coffees` collection.  Fields that legacy
documents may lack are `Option`; `userId` is the owner stamp written by
`createCoffee`/`updateCoffee`. -/
structure StoredDoc where
  userId : String
  coffeeName : Option String := none
  quantityUnit : Option String := none
  brandName : Option String := none
  quantity : Option String := none
  orderDate : DateVal := .missing
  roast : Option String := none
  formFactor : Option String := none
  notes : Option String := none
  bitternessRating : JsVal := .undef
  acidityRating : JsVal := .undef
  noteClarityRating : JsVal := .undef
  overallTasteRating : JsVal := .undef
  worthReordering : JsVal := .undef
  createdAt : Option Int := none
  updatedAt : Option Int := none
deriving DecidableEq, Repr

/-- The `Coffee` object returned to callers.  `coffeeName`, `quantityUnit`,
`userId`, `createdAt`, `updatedAt` are `Option` because the objects built
by `createCoffee`/`updateCoffee` (`{ id, ...insertCoffee }`) omit them,
while the objects built by the read paths include them via `...data`. -/
structure Coffee where
  id : String
  coffeeName : Option String := none
  quantityUnit : Option String := none
  userId : Option String := none
  brandName : Option String := none
  quantity : Option String := none
  orderDate : DateVal := .missing
  roast : Option String := none
  formFactor : Option String := none
  notes : Option String := none
  bitternessRating : JsVal := .undef
  acidityRating : JsVal := .undef
  noteClarityRating : JsVal := .undef
  overallTasteRating : JsVal := .undef
  worthReordering : JsVal := .undef
  createdAt : Option Int := none
  updatedAt : Option Int := none
deriving DecidableEq, Repr

/-- The validated insert payload (`insertCoffeeSchema` of
`src/shared/schema.ts`).  `orderDate` is the date string, represented by
its parse semantics.  `payloadUserId` models a stray `userId` property that
a raw payload object may carry; the storage layer must ignore it. -/
structure InsertCoffee where
  brandName : String
  quantity : String
  orderDate : DateVal
  roast : String
  formFactor : String
  notes : String
  bitternessRating : Rat
  acidityRating : Rat
  noteClarityRating : Rat
  overallTasteRating : Rat
  worthReordering : Rat
  payloadUserId : Option String := none
deriving DecidableEq, Repr

/-- `export type CoffeeSortKey = "orderDate" | "overallTasteRating"`. -/
inductive CoffeeSortKey where
  | orderDate
  | overallTasteRating
deriving DecidableEq, Repr

/-- The collection: document ids paired with raw documents, in snapshot
enumeration order.  Firestore ids are unique; lookups take the first
match. -/
abbrev Store := List (String × StoredDoc)

/-- A write issued to the document store (used to observe the error paths
of `updateCoffee`/`deleteCoffee`). -/
inductive WriteOp where
  | updateDoc (id : String)
  | deleteDoc (id : String)
deriving DecidableEq, Repr

/-- `db.collection('coffees').doc(id).get()`: the document with this id, if
present. -/
def findDoc : Store → String → Option StoredDoc
  | [], _ => none
  | e :: rest, id => if e.1 = id then some e.2 else findDoc rest id

/-- The rating normalizer inlined in `getCoffees` (`storage.ts` lines
33-36): `if (typeof overall === 'number' && overall > 5) overall = overall / 2`. -/
def normalizeOverall (v : JsVal) : JsVal :=
  match v with
  | .num q => if 5 < q then .num (q / 2) else .num q
  | v => v

/-- The object `{ id, coffeeName: data.coffeeName || "", quantityUnit:
data.quantityUnit || "g", ...data }` built by `getCoffee` (`storage.ts`
lines 80-85).  The defaults are overridden by `...data` whenever the
document carries the field, so the net value is the document's value with a
default for an absent field. -/
def rawToCoffee (id : String) (data : StoredDoc) : Coffee :=
  { id := id
    coffeeName := some (data.coffeeName.getD "")
    quantityUnit := some (data.quantityUnit.getD "g")
    userId := some data.userId
    brandName := data.brandName
    quantity := data.quantity
    orderDate := data.orderDate
    roast := data.roast
    formFactor := data.formFactor
    notes := data.notes
    bitternessRating := data.bitternessRating
    acidityRating := data.acidityRating
    noteClarityRating := data.noteClarityRating
    overallTasteRating := data.overallTasteRating
    worthReordering := data.worthReordering
    createdAt := data.createdAt
    updatedAt := data.updatedAt }

/-- The object built per document by the `getCoffees` map (`storage.ts`
lines 30-44): same as `rawToCoffee` except that `overallTasteRating:
overall` is written after `...data`, so the normalized rating wins. -/
def listToCoffee (id : String) (data : StoredDoc) : Coffee :=
  { rawToCoffee id data with
      overallTasteRating := normalizeOverall data.overallTasteRating }

/-- `db.collection('coffees').where('userId', '==', userId).get()`
(`storage.ts` lines 26-28): only this user's documents, in snapshot
order. -/
def fetchUserDocs (store : Store) (userId : String) : Store :=
  store.filter (fun e => e.2.userId == userId)

/-- The in-memory brand filter (`storage.ts` lines 47-49).  `if
(brandName)` is a JavaScript truthiness test, so an empty-string brand
skips the filter. -/
def brandFiltered (brandName : Option String) (coffees : List Coffee) : List Coffee :=
  match brandName with
  | some b => if b = "" then coffees else coffees.filter (fun c => c.brandName == some b)
  | none => coffees

/-- Rating sort key (`storage.ts` lines 56-57): a non-numeric
`overallTasteRating` is treated as `0`. -/
def ratingNum (c : Coffee) : Rat :=
  match c.overallTasteRating with
  | .num q => q
  | _ => 0

/-- `getMillis` (`storage.ts` lines 61-65): a falsy date yields `0`, a
`Timestamp` yields its epoch milliseconds, anything else is parsed by
`new Date(d).getTime()`. -/
def getMillis (d : DateVal) : Int :=
  match d with
  | .missing => 0
  | .timestamp ms => ms
  | .dateString ms => ms

/-- The sort relation of the comparator at `storage.ts` lines 54-68: `a`
may precede `b` exactly when the comparator value (`rb - ra`, resp.
`getMillis(b) - getMillis(a)`) is `≤ 0`, i.e. descending in the chosen
key. -/
def sortLe (sort : CoffeeSortKey) (a b : Coffee) : Prop :=
  match sort with
  | .overallTasteRating => ratingNum b ≤ ratingNum a
  | .orderDate => getMillis b.orderDate ≤ getMillis a.orderDate

def sortLeDec : (sort : CoffeeSortKey) → DecidableRel (sortLe sort)
  | .overallTasteRating, a, b => inferInstanceAs (Decidable (ratingNum b ≤ ratingNum a))
  | .orderDate, a, b =>
      inferInstanceAs (Decidable (getMillis b.orderDate ≤ getMillis a.orderDate))

instance (sort : CoffeeSortKey) : DecidableRel (sortLe sort) := sortLeDec sort

instance (sort : CoffeeSortKey) : IsTotal Coffee (sortLe sort) where
  total a b := by
    cases sort
    · exact le_total (getMillis b.orderDate) (getMillis a.orderDate)
    · exact le_total (ratingNum b) (ratingNum a)

instance (sort : CoffeeSortKey) : IsTrans Coffee (sortLe sort) where
  trans a b c hab hbc := by
    cases sort
    · exact le_trans hbc hab
    · exact le_trans hbc hab

/-- `FirestoreStorage.getCoffees` (`storage.ts` lines 22-71): fetch the
owner's documents, materialize each with the normalized rating, apply the
optional brand filter, then sort with the stable in-memory sort. -/
def getCoffees (store : Store) (userId : String) (sort : CoffeeSortKey)
    (brandName : Option String) : List Coffee :=
  let snapshot := fetchUserDocs store userId
  let coffees := snapshot.map (fun e => listToCoffee e.1 e.2)
  List.insertionSort (sortLe sort) (brandFiltered brandName coffees)

/-- `FirestoreStorage.getCoffee` (`storage.ts` lines 73-86).  A missing
document and an owner mismatch both yield `none`; note that this path
performs no rating normalization. -/
def getCoffee (store : Store) (userId id : String) : Option Coffee :=
  match findDoc store id with
  | none => none
  | some data => if data.userId ≠ userId then none else some (rawToCoffee id data)

/-- The document written by `createCoffee` (`storage.ts` lines 89-93):
`{ ...insertCoffee, userId, createdAt: new Date() }`.  The `userId` key is
written after the payload spread, so it always carries the authenticated
identity, overriding any `userId` the payload may carry. -/
def createdDoc (userId : String) (p : InsertCoffee) (now : Int) : StoredDoc :=
  { userId := userId
    brandName := some p.brandName
    quantity := some p.quantity
    orderDate := p.orderDate
    roast := some p.roast
    formFactor := some p.formFactor
    notes := some p.notes
    bitternessRating := .num p.bitternessRating
    acidityRating := .num p.acidityRating
    noteClarityRating := .num p.noteClarityRating
    overallTasteRating := .num p.overallTasteRating
    worthReordering := .num p.worthReordering
    createdAt := some now }

/-- The object `{ id, ...insertCoffee }` returned by
`createCoffee`/`updateCoffee` (`storage.ts` lines 95-98 and 115).  It is
built from the payload alone: no defaults, no normalization, and its
`userId` is whatever the raw payload carried. -/
def insertReturn (id : String) (p : InsertCoffee) : Coffee :=
  { id := id
    userId := p.payloadUserId
    brandName := some p.brandName
    quantity := some p.quantity
    orderDate := p.orderDate
    roast := some p.roast
    formFactor := some p.formFactor
    notes := some p.notes
    bitternessRating := .num p.bitternessRating
    acidityRating := .num p.acidityRating
    noteClarityRating := .num p.noteClarityRating
    overallTasteRating := .num p.overallTasteRating
    worthReordering := .num p.worthReordering }

/-- `FirestoreStorage.createCoffee` (`storage.ts` lines 88-99): the store
assigns `newId` and the document is appended; `now` models
`new Date()`. -/
def createCoffee (store : Store) (userId : String) (p : InsertCoffee)
    (newId : String) (now : Int) : Store × Coffee :=
  (store ++ [(newId, createdDoc userId p now)], insertReturn newId p)

/-- The Firestore `update` merge performed by `updateCoffee` (`storage.ts`
lines 109-113): the payload fields, a re-stamped `userId`, and `updatedAt`
are merged into the existing document; fields not mentioned
(`coffeeName`, `quantityUnit`, `createdAt`) are preserved. -/
def updatedDoc (old : StoredDoc) (userId : String) (p : InsertCoffee)
    (now : Int) : StoredDoc :=
  { old with
      userId := userId
      brandName := some p.brandName
      quantity := some p.quantity
      orderDate := p.orderDate
      roast := some p.roast
      formFactor := some p.formFactor
      notes := some p.notes
      bitternessRating := .num p.bitternessRating
      acidityRating := .num p.acidityRating
      noteClarityRating := .num p.noteClarityRating
      overallTasteRating := .num p.overallTasteRating
      worthReordering := .num p.worthReordering
      updatedAt := some now }

/-- `FirestoreStorage.updateCoffee` (`storage.ts` lines 101-116).  Returns
the store after the call, the writes issued, and the result: a missing
document or an owner mismatch yields `none` before any write. -/
def updateCoffee (store : Store) (userId id : String) (p : InsertCoffee)
    (now : Int) : Store × List WriteOp × Option Coffee :=
  match findDoc store id with
  | none => (store, [], none)
  | some data =>
      if data.userId ≠ userId then (store, [], none)
      else
        (store.map (fun e => if e.1 = id then (e.1, updatedDoc e.2 userId p now) else e),
         [.updateDoc id], some (insertReturn id p))

/-- `FirestoreStorage.deleteCoffee` (`storage.ts` lines 118-128).  Returns
the store after the call, the writes issued, and the boolean outcome. -/
def deleteCoffee (store : Store) (userId id : String) :
    Store × List WriteOp × Bool :=
  match findDoc store id with
  | none => (store, [], false)
  | some data =>
      if data.userId ≠ userId then (store, [], false)
      else (store.filter (fun e => e.1 != id), [.deleteDoc id], true)

/-- A store query observable from outside: the single
`db.collection(...).where(...).get()` awaited by `getCoffees`. -/
inductive StoreFetch where
  | listQuery (userId : String)
deriving DecidableEq, Repr

/-- `getCoffees` with its store traffic: the body of the method awaits
exactly one store query, unconditionally, before anything else
(`storage.ts` lines 26-28; the previous in-memory cache was removed, see
the comment at lines 23-25). -/
def getCoffeesTraced (store : Store) (userId : String) (sort : CoffeeSortKey)
    (brandName : Option String) : List StoreFetch × List Coffee :=
  ([.listQuery userId], getCoffees store userId sort brandName)

/-- Store traffic of several list calls against the same store snapshot.
The `FirestoreStorage` instance keeps no cross-call mutable state (its only
field is the constant collection name), so the store traffic of any
interleaving of concurrent calls is the union of the calls' own traces;
concurrent callers are modelled by the list of their calls. -/
def runListCalls (store : Store)
    (calls : List (String × CoffeeSortKey × Option String)) : List StoreFetch :=
  (calls.map (fun a => (getCoffeesTraced store a.1 a.2.1 a.2.2).1)).flatten

/-- The order claimed by the specification for `list` results: strictly
descending in the chosen key, with ties broken by ascending `id`
(lexicographic code-point order, stated over the id's character list). -/
def claimedTieLe (sort : CoffeeSortKey) (a b : Coffee) : Prop :=
  match sort with
  | .overallTasteRating =>
      ratingNum b < ratingNum a ∨ (ratingNum a = ratingNum b ∧ a.id.data < b.id.data)
  | .orderDate =>
      getMillis b.orderDate < getMillis a.orderDate ∨
        (getMillis a.orderDate = getMillis b.orderDate ∧ a.id.data < b.id.data)

def claimedTieLeDec : (sort : CoffeeSortKey) → DecidableRel (claimedTieLe sort)
  | .overallTasteRating, a, b =>
      inferInstanceAs (Decidable (ratingNum b < ratingNum a ∨
        (ratingNum a = ratingNum b ∧ a.id.data < b.id.data)))
  | .orderDate, a, b =>
      inferInstanceAs (Decidable (getMillis b.orderDate < getMillis a.orderDate ∨
        (getMillis a.orderDate = getMillis b.orderDate ∧ a.id.data < b.id.data)))

instance (sort : CoffeeSortKey) : DecidableRel (claimedTieLe sort) :=
  claimedTieLeDec sort

/-! ### Concrete sample data for witnesses and counterexamples -/

/-- A schema-valid payload (all ratings in range, canonical scale). -/
def sampleInsert : InsertCoffee :=
  { brandName := "Lavazza"
    quantity := "250"
    orderDate := .dateString 100
    roast := "medium"
    formFactor := "beans"
    notes := "nutty"
    bitternessRating := 5
    acidityRating := 5
    noteClarityRating := 5
    overallTasteRating := 4
    worthReordering := 1 }

/-- Payload with the documented 10-point-scale rating `9`. -/
def insert9 : InsertCoffee := { sampleInsert with overallTasteRating := 9 }

/-- Payload with the documented ambiguous rating `3`. -/
def insert3 : InsertCoffee :=
  { sampleInsert with brandName := "Illy", overallTasteRating := 3 }

/-- A record owned by `"owner1"`. -/
def ownedDoc : StoredDoc :=
  { userId := "owner1", brandName := some "Lavazza", orderDate := .dateString 100
    overallTasteRating := .num 4 }

def storeC1 : Store := [("x", ownedDoc)]

def docC2 : StoredDoc :=
  { userId := "u1", brandName := some "Kimbo", orderDate := .dateString 100
    overallTasteRating := .num 4 }

def storeC2 : Store := [("x", docC2)]

/-- Two records of `"u1"` with equal ratings, snapshot order `"b"` before
`"a"`. -/
def docC3b : StoredDoc :=
  { userId := "u1", brandName := some "Lavazza", orderDate := .dateString 200
    overallTasteRating := .num 4 }

def docC3a : StoredDoc :=
  { userId := "u1", brandName := some "Illy", orderDate := .dateString 100
    overallTasteRating := .num 4 }

def storeC3 : Store := [("b", docC3b), ("a", docC3a)]

def docC4 : StoredDoc :=
  { userId := "u1", brandName := some "Lavazza", orderDate := .dateString 100
    overallTasteRating := .num 4 }

def storeC4 : Store := [("x", docC4)]

def docC6 : StoredDoc :=
  { userId := "u1", brandName := some "Old", orderDate := .dateString 50
    overallTasteRating := .num 2 }

def storeC6 : Store := [("x", docC6)]

/-- The store after the successful `updateCoffee` of the C6 witness. -/
def storeC6after : Store := [("x", updatedDoc docC6 "u1" sampleInsert 0)]

/-- A stored legacy record with a 10-point-scale rating `9` (inside the
contractual `[1,10]` range). -/
def docC7 : StoredDoc :=
  { userId := "u1", brandName := some "Lavazza", orderDate := .dateString 100
    overallTasteRating := .num 9 }

def storeC7 : Store := [("x", docC7)]

def docC7w : StoredDoc :=
  { userId := "u1", brandName := some "Segafredo", orderDate := .dateString 100
    overallTasteRating := .num 4 }

def storeC7w : Store := [("x", docC7w)]

def docC10 : StoredDoc :=
  { userId := "u1", brandName := some "Lavazza", orderDate := .dateString 100
    overallTasteRating := .num 4 }

def storeC10 : Store := [("x", docC10)]

/-! ### Helper lemmas -/

/-- Every record produced by `getCoffees` is the materialization of one of
the owner's stored documents. -/
theorem mem_getCoffees {store : Store} {u : String} {s : CoffeeSortKey}
    {b : Option String} {c : Coffee} (h : c ∈ getCoffees store u s b) :
    ∃ id data, (id, data) ∈ store ∧ data.userId = u ∧ c = listToCoffee id data := by
  simp only [getCoffees] at h
  rw [List.mem_insertionSort] at h
  have hb : c ∈ (fetchUserDocs store u).map (fun e => listToCoffee e.1 e.2) := by
    cases b with
    | none => exact h
    | some bb =>
        by_cases he : bb = ""
        · simpa [brandFiltered, he] using h
        · have h2 : c ∈ ((fetchUserDocs store u).map
              (fun e => listToCoffee e.1 e.2)).filter
              (fun c => c.brandName == some bb) := by
            simpa [brandFiltered, he] using h
          exact List.mem_of_mem_filter h2
  rcases List.mem_map.mp hb with ⟨e, he2, hec⟩
  have he3 : e ∈ store.filter (fun e => e.2.userId == u) := he2
  rcases List.mem_filter.mp he3 with ⟨hes, heu⟩
  exact ⟨e.1, e.2, hes, by simpa using heu, hec.symm⟩

/-- A stored document of the owner is surfaced by an unfiltered list
read. -/
theorem listToCoffee_mem_getCoffees {store : Store} {u : String}
    {s : CoffeeSortKey} {id : String} {data : StoredDoc}
    (hmem : (id, data) ∈ store) (hu : data.userId = u) :
    listToCoffee id data ∈ getCoffees store u s none := by
  simp only [getCoffees, brandFiltered]
  rw [List.mem_insertionSort]
  exact List.mem_map.mpr
    ⟨(id, data), List.mem_filter.mpr ⟨hmem, by simp [hu]⟩, rfl⟩

/-- Looking up `id` after replacing the document at `id` finds the
replacement. -/
theorem findDoc_map_set (store : Store) (id : String) (f : StoredDoc → StoredDoc) :
    findDoc (store.map (fun e => if e.1 = id then (e.1, f e.2) else e)) id
      = (findDoc store id).map f := by
  induction store with
  | nil => rfl
  | cons e rest ih =>
      by_cases h : e.1 = id
      · simp [findDoc, h]
      · simp [findDoc, h, ih]

/-- Appending a document under a fresh id makes it the one `findDoc`
returns for that id. -/
theorem findDoc_append_fresh (id : String) (d : StoredDoc) :
    ∀ store : Store, (∀ e ∈ store, e.1 ≠ id) →
      findDoc (store ++ [(id, d)]) id = some d := by
  intro store
  induction store with
  | nil => intro _; simp [findDoc]
  | cons e rest ih =>
      intro hfresh
      have h1 : e.1 ≠ id := hfresh e (by simp)
      rw [List.cons_append]
      show (if e.1 = id then some e.2 else findDoc (rest ++ [(id, d)]) id) = some d
      rw [if_neg h1]
      exact ih (fun x hx => hfresh x (by simp [hx]))

/-! ### Claim theorems -/

/-- C1: for a record id that is absent or whose stored owner differs from
the caller, the id-addressed operations yield exactly the outcomes of the
absent case: `get` returns `undefined`, `update` returns `undefined` and
leaves the store untouched with no write, `delete` returns `false` and
leaves the store untouched with no write — a foreign-owned record is
indistinguishable from an absent one. -/
theorem foreign_record_indistinguishable (store : Store) (u id : String)
    (p : InsertCoffee) (now : Int)
    (h : ∀ data, findDoc store id = some data → data.userId ≠ u) :
    getCoffee store u id = none ∧
    updateCoffee store u id p now = (store, [], none) ∧
    deleteCoffee store u id = (store, [], false) := by
  cases h0 : findDoc store id with
  | none => simp [getCoffee, updateCoffee, deleteCoffee, h0]
  | some data =>
      have hne := h data h0
      simp [getCoffee, updateCoffee, deleteCoffee, h0, hne]

/-- Witness for C1: a concrete store with one record owned by `"owner1"`,
addressed by the identity `"intruder"`. -/
theorem foreign_record_indistinguishable_witness :
    getCoffee storeC1 "intruder" "x" = none ∧
    updateCoffee storeC1 "intruder" "x" sampleInsert 0 = (storeC1, [], none) ∧
    deleteCoffee storeC1 "intruder" "x" = (storeC1, [], false) :=
  foreign_record_indistinguishable storeC1 "intruder" "x" sampleInsert 0
    (by intro d hd
        have h1 : findDoc storeC1 "x" = some ownedDoc := by decide
        rw [h1] at hd
        injection hd with h2
        subst h2
        decide)

/-- C10: whenever `updateCoffee` or `deleteCoffee` returns the NotFound
outcome, no write of any kind is issued to the document store and the
stored state is exactly what it was. -/
theorem notfound_no_write (store : Store) (u id : String) (p : InsertCoffee)
    (now : Int) :
    ((updateCoffee store u id p now).2.2 = none →
      (updateCoffee store u id p now).1 = store ∧
        (updateCoffee store u id p now).2.1 = []) ∧
    ((deleteCoffee store u id).2.2 = false →
      (deleteCoffee store u id).1 = store ∧
        (deleteCoffee store u id).2.1 = []) := by
  constructor
  · intro h
    cases h0 : findDoc store id with
    | none => simp [updateCoffee, h0]
    | some data =>
        by_cases hu : data.userId = u
        · simp [updateCoffee, h0, hu] at h
        · simp [updateCoffee, h0, hu]
  · intro h
    cases h0 : findDoc store id with
    | none => simp [deleteCoffee, h0]
    | some data =>
        by_cases hu : data.userId = u
        · simp [deleteCoffee, h0, hu] at h
        · simp [deleteCoffee, h0, hu]

/-- Witness for C10: update and delete of an absent id on a concrete
store. -/
theorem notfound_no_write_witness :
    (updateCoffee storeC10 "u1" "nope" sampleInsert 0).1 = storeC10 ∧
    (updateCoffee storeC10 "u1" "nope" sampleInsert 0).2.1 = [] ∧
    (deleteCoffee storeC10 "u1" "nope").1 = storeC10 ∧
    (deleteCoffee storeC10 "u1" "nope").2.1 = [] := by
  obtain ⟨h1, h2⟩ := notfound_no_write storeC10 "u1" "nope" sampleInsert 0
  obtain ⟨a1, a2⟩ := h1 (by decide)
  obtain ⟨b1, b2⟩ := h2 (by decide)
  exact ⟨a1, a2, b1, b2⟩

/-- C2: the normalizer halves a numeric stored rating exactly when it is
strictly greater than 5, leaves numeric values at most 5 unchanged, leaves
non-numeric values unconverted, and is applied to every document a list
read materializes. -/
theorem normalizer_threshold_rule :
    (∀ q : Rat, 5 < q → normalizeOverall (.num q) = .num (q / 2)) ∧
    (∀ q : Rat, q ≤ 5 → normalizeOverall (.num q) = .num q) ∧
    (∀ v : JsVal, (∀ q : Rat, v ≠ .num q) → normalizeOverall v = v) ∧
    (∀ (store : Store) (u : String) (s : CoffeeSortKey) (b : Option String)
        (c : Coffee), c ∈ getCoffees store u s b →
      ∃ id data, (id, data) ∈ store ∧
        c.overallTasteRating = normalizeOverall data.overallTasteRating) := by
  refine ⟨?_, ?_, ?_, ?_⟩
  · intro q hq; simp [normalizeOverall, hq]
  · intro q hq; simp [normalizeOverall, not_lt.mpr hq]
  · intro v hv
    cases v with
    | num q => exact absurd rfl (hv q)
    | str s => rfl
    | undef => rfl
  · intro store u s b c hc
    rcases mem_getCoffees hc with ⟨id, data, hmem, _, hceq⟩
    exact ⟨id, data, hmem, by rw [hceq]; rfl⟩

/-- Witness for C2: the threshold rule evaluated at 9, 3 and a non-numeric
legacy value. -/
theorem normalizer_threshold_rule_witness :
    normalizeOverall (.num 9) = .num (9 / 2) ∧
    normalizeOverall (.num 3) = .num 3 ∧
    normalizeOverall (.str "legacy") = .str "legacy" :=
  ⟨normalizer_threshold_rule.1 9 (by norm_num),
   normalizer_threshold_rule.2.1 3 (by norm_num),
   normalizer_threshold_rule.2.2.1 _ (fun q h => JsVal.noConfusion h)⟩

/-- Counterexample for C5: the normalizer is not idempotent outside the
contractual range — `normalize(normalize(12)) = 3` while
`normalize(12) = 6`. -/
theorem normalize_idempotent_cex :
    normalizeOverall (normalizeOverall (.num 12)) ≠ normalizeOverall (.num 12) := by
  have h1 : normalizeOverall (.num 12) = .num 6 := by
    simp only [normalizeOverall]
    rw [if_pos (by norm_num : (5:Rat) < 12)]
    congr 1
    norm_num
  have h2 : normalizeOverall (.num 6) = .num 3 := by
    simp only [normalizeOverall]
    rw [if_pos (by norm_num : (5:Rat) < 6)]
    congr 1
    norm_num
  rw [h1, h2]
  decide

/-- C5 as amended: the normalizer is idempotent on every non-numeric value
and on every numeric value at most 10 — that is, on the whole contractual
`[1,10]` range — but not on all inputs. -/
theorem normalize_idempotent_le10 (v : JsVal)
    (h : ∀ q : Rat, v = .num q → q ≤ 10) :
    normalizeOverall (normalizeOverall v) = normalizeOverall v := by
  cases v with
  | str s => rfl
  | undef => rfl
  | num q =>
      have hq : q ≤ 10 := h q rfl
      by_cases h5 : 5 < q
      · have hhalf : ¬ (5 < q / 2) := by intro hc; linarith
        simp only [normalizeOverall]
        rw [if_pos h5]
        simp only [normalizeOverall]
        rw [if_neg hhalf]
      · simp only [normalizeOverall]
        rw [if_neg h5]
        simp only [normalizeOverall]
        rw [if_neg h5]

/-- Witness for C5: idempotence at the in-range value 8. -/
theorem normalize_idempotent_le10_witness :
    normalizeOverall (normalizeOverall (.num 8)) = normalizeOverall (.num 8) :=
  normalize_idempotent_le10 (.num 8)
    (by intro q h
        injection h with h2
        subst h2
        norm_num)

/-- C6: the document persisted by `createCoffee` carries the authenticated
identity as `userId` (the `userId` key is written after the payload spread,
so any stray owner value in the payload is ignored), and after a
successful `updateCoffee` by identity `u` the stored document's `userId`
is again `u`, re-derived from the authenticated identity, never taken from
the payload. -/
theorem ownerId_stamped_and_immutable :
    (∀ (u : String) (p : InsertCoffee) (now : Int),
      (createdDoc u p now).userId = u) ∧
    (∀ (u : String) (p : InsertCoffee) (v : Option String) (now : Int),
      createdDoc u { p with payloadUserId := v } now = createdDoc u p now) ∧
    (∀ (store : Store) (u newId : String) (p : InsertCoffee) (now : Int),
      (∀ e ∈ store, e.1 ≠ newId) →
      findDoc (createCoffee store u p newId now).1 newId
        = some (createdDoc u p now)) ∧
    (∀ (store : Store) (u id : String) (p : InsertCoffee) (now : Int)
        (st : Store) (tr : List WriteOp) (c : Coffee),
      updateCoffee store u id p now = (st, tr, some c) →
      ∀ d, findDoc st id = some d → d.userId = u) := by
  refine ⟨fun u p now => rfl, fun u p v now => rfl, ?_, ?_⟩
  · intro store u newId p now hfresh
    exact findDoc_append_fresh newId (createdDoc u p now) store hfresh
  · intro store u id p now st tr c hresult d hd
    cases h0 : findDoc store id with
    | none => simp [updateCoffee, h0] at hresult
    | some data =>
        by_cases hu : data.userId = u
        · have heq : updateCoffee store u id p now
              = (store.map (fun e => if e.1 = id then (e.1, updatedDoc e.2 u p now) else e),
                 [.updateDoc id], some (insertReturn id p)) := by
            simp [updateCoffee, h0, hu]
          rw [heq] at hresult
          have hst := congrArg Prod.fst hresult
          simp only at hst
          subst hst
          have hmap := findDoc_map_set store id (fun d0 => updatedDoc d0 u p now)
          rw [hmap, h0] at hd
          simp only [Option.map_some'] at hd
          injection hd with hd2
          subst hd2
          rfl
        · simp [updateCoffee, h0, hu] at hresult

/-- Witness for C6: a payload carrying a stray owner value `"mallory"`, and
a concrete successful update. -/
theorem ownerId_stamped_and_immutable_witness :
    (createdDoc "u1" { sampleInsert with payloadUserId := some "mallory" } 0).userId = "u1" ∧
    createdDoc "u1" { sampleInsert with payloadUserId := some "mallory" } 0
      = createdDoc "u1" sampleInsert 0 ∧
    (updatedDoc docC6 "u1" sampleInsert 0).userId = "u1" :=
  ⟨ownerId_stamped_and_immutable.1 "u1" _ 0,
   ownerId_stamped_and_immutable.2.1 "u1" sampleInsert (some "mallory") 0,
   ownerId_stamped_and_immutable.2.2.2 storeC6 "u1" "x" sampleInsert 0
     storeC6after [.updateDoc "x"] (insertReturn "x" sampleInsert)
     (by decide) (updatedDoc docC6 "u1" sampleInsert 0) (by decide)⟩

/-- Counterexample for C7: `getCoffee` performs no rating normalization, so
a stored legacy 10-point rating `9` (inside the contractual `[1,10]` range)
is surfaced unchanged by the single-record read — above the canonical
5-point bound. -/
theorem get_rating_canonical_cex :
    (getCoffee storeC7 "u1" "x").map (fun c => c.overallTasteRating)
      = some (JsVal.num 9) ∧
    (1:Rat) ≤ 9 ∧ (9:Rat) ≤ 10 ∧ ¬ ((9:Rat) ≤ 5) := by
  decide

/-- C7 as amended: list reads normalize on read, so when every stored
numeric rating lies in the contractual `[1,10]` range, every record
returned by `getCoffees` has a numeric rating at most 5; the single-record
`getCoffee` returns the stored value unnormalized and gives no such
bound. -/
theorem list_rating_canonical (store : Store) (u : String) (s : CoffeeSortKey)
    (b : Option String)
    (hrange : ∀ id data, (id, data) ∈ store →
      ∀ q : Rat, data.overallTasteRating = .num q → 1 ≤ q ∧ q ≤ 10) :
    ∀ c ∈ getCoffees store u s b, ∀ q : Rat,
      c.overallTasteRating = .num q → q ≤ 5 := by
  intro c hc q hq
  rcases mem_getCoffees hc with ⟨id, data, hmem, -, hceq⟩
  subst hceq
  have hq2 : normalizeOverall data.overallTasteRating = .num q := hq
  cases hv : data.overallTasteRating with
  | num q0 =>
      have hb := hrange id data hmem q0 hv
      rw [hv] at hq2
      simp only [normalizeOverall] at hq2
      by_cases h5 : 5 < q0
      · rw [if_pos h5] at hq2
        injection hq2 with h6
        linarith [hb.2]
      · rw [if_neg h5] at hq2
        injection hq2 with h6
        rw [← h6]
        linarith [not_lt.mp h5]
  | str s0 => rw [hv] at hq2; simp [normalizeOverall] at hq2
  | undef => rw [hv] at hq2; simp [normalizeOverall] at hq2

/-- Witness for C7: the amended bound evaluated on a concrete in-range
store. -/
theorem list_rating_canonical_witness :
    (listToCoffee "x" docC7w).overallTasteRating = JsVal.num 4 ∧ (4:Rat) ≤ 5 := by
  constructor
  · decide
  · refine list_rating_canonical storeC7w "u1" .orderDate none ?_
      (listToCoffee "x" docC7w) (by decide) 4 (by decide)
    intro id data hmem q hq
    simp only [storeC7w, List.mem_singleton, Prod.mk.injEq] at hmem
    obtain ⟨-, h2⟩ := hmem
    subst h2
    have h3 : JsVal.num 4 = JsVal.num q := hq
    injection h3 with h4
    subst h4
    norm_num

/-- Counterexample for C4: an empty-string brand argument is supplied yet,
being falsy, skips the brand filter, so a record whose brand is
`"Lavazza"` is returned — the returned records do not all match the
supplied brand. -/
theorem list_brand_filter_cex :
    ¬ (∀ c ∈ getCoffees storeC4 "u1" .orderDate (some ""), c.brandName = some "") := by
  decide

/-- C4 as amended: every record returned by `getCoffees` has `userId`
exactly the requested owner (the owner filter is always applied); when a
NON-EMPTY brand string is supplied every returned record additionally has
exactly that brand (an empty-string brand is falsy and skips the filter);
and an owner with no stored records receives an empty list. -/
theorem list_owner_brand_filter (store : Store) (u : String) (s : CoffeeSortKey)
    (b : Option String) :
    (∀ c ∈ getCoffees store u s b, c.userId = some u) ∧
    (∀ bb : String, b = some bb → bb ≠ "" →
      ∀ c ∈ getCoffees store u s b, c.brandName = some bb) ∧
    ((∀ e ∈ store, e.2.userId ≠ u) → getCoffees store u s b = []) := by
  refine ⟨?_, ?_, ?_⟩
  · intro c hc
    rcases mem_getCoffees hc with ⟨id, data, -, huser, hceq⟩
    subst hceq
    show some data.userId = some u
    rw [huser]
  · intro bb hbb hne c hc
    subst hbb
    simp only [getCoffees] at hc
    rw [List.mem_insertionSort] at hc
    simp only [brandFiltered] at hc
    rw [if_neg hne] at hc
    have h2 := (List.mem_filter.mp hc).2
    simpa using h2
  · intro hnone
    have hf : fetchUserDocs store u = [] := by
      rw [fetchUserDocs, List.filter_eq_nil_iff]
      intro e he
      simp [hnone e he]
    cases b with
    | none => simp [getCoffees, hf, brandFiltered, List.insertionSort]
    | some bb =>
        by_cases he : bb = "" <;>
          simp [getCoffees, hf, brandFiltered, he, List.insertionSort]

/-- Witness for C4: owner and brand filters evaluated on a concrete store,
and the empty result for an owner with no records. -/
theorem list_owner_brand_filter_witness :
    (listToCoffee "x" docC4).userId = some "u1" ∧
    (listToCoffee "x" docC4).brandName = some "Lavazza" ∧
    getCoffees storeC4 "u2" .orderDate none = [] := by
  refine ⟨?_, ?_, ?_⟩
  · exact (list_owner_brand_filter storeC4 "u1" .orderDate none).1
      (listToCoffee "x" docC4) (by decide)
  · exact (list_owner_brand_filter storeC4 "u1" .orderDate (some "Lavazza")).2.1
      "Lavazza" rfl (by decide) (listToCoffee "x" docC4) (by decide)
  · exact (list_owner_brand_filter storeC4 "u2" .orderDate none).2.2 (by decide)

/-- Counterexample for C3: two records of `"u1"` with equal ratings are
returned in snapshot order (`"b"` before `"a"`): the sort is stable and has
no id tie-break, so the output violates the claimed
descending-key-then-ascending-id order. -/
theorem list_sort_tiebreak_cex :
    (getCoffees storeC3 "u1" .overallTasteRating none).map (fun c => c.id)
      = ["b", "a"] ∧
    ¬ List.Pairwise (claimedTieLe .overallTasteRating)
        (getCoffees storeC3 "u1" .overallTasteRating none) := by
  decide

/-- C3 as amended: `getCoffees` returns a permutation of the owner- and
brand-filtered records, sorted descending in the chosen key (a non-numeric
rating counts as 0, a missing date as the epoch); equal keys are not
reordered by id — the stable sort leaves ties in snapshot order. -/
theorem list_sort_descending (store : Store) (u : String) (s : CoffeeSortKey)
    (b : Option String) :
    List.Sorted (sortLe s) (getCoffees store u s b) ∧
    (getCoffees store u s b).Perm
      (brandFiltered b ((fetchUserDocs store u).map (fun e => listToCoffee e.1 e.2))) :=
  ⟨List.sorted_insertionSort (sortLe s) _, List.perm_insertionSort (sortLe s) _⟩

/-- C8: after `create` with rating 9, every list read surfaces the created
record with canonical rating 9/2 = 4.5 — and the record is indeed
surfaced; after `create` with rating 3, the surfaced rating is 3
unchanged (the documented ambiguous case). -/
theorem create_rating_read_back (store : Store) (u newId : String)
    (p9 p3 : InsertCoffee) (now : Int)
    (hfresh : ∀ e ∈ store, e.1 ≠ newId)
    (h9 : p9.overallTasteRating = 9) (h3 : p3.overallTasteRating = 3) :
    (∀ (s : CoffeeSortKey) (b : Option String) (c : Coffee),
      c ∈ getCoffees (createCoffee store u p9 newId now).1 u s b →
      c.id = newId → c.overallTasteRating = .num (9 / 2)) ∧
    (listToCoffee newId (createdDoc u p9 now)
      ∈ getCoffees (createCoffee store u p9 newId now).1 u .orderDate none) ∧
    (∀ (s : CoffeeSortKey) (b : Option String) (c : Coffee),
      c ∈ getCoffees (createCoffee store u p3 newId now).1 u s b →
      c.id = newId → c.overallTasteRating = .num 3) ∧
    (listToCoffee newId (createdDoc u p3 now)
      ∈ getCoffees (createCoffee store u p3 newId now).1 u .orderDate none) := by
  refine ⟨?_, ?_, ?_, ?_⟩
  · intro s b c hc hid
    rcases mem_getCoffees hc with ⟨id, data, hmem, -, hceq⟩
    subst hceq
    have hid2 : id = newId := hid
    subst hid2
    rcases List.mem_append.mp hmem with hmem1 | hmem2
    · exact absurd rfl (hfresh (id, data) hmem1)
    · have hdata : data = createdDoc u p9 now := by simpa using hmem2
      subst hdata
      show normalizeOverall (createdDoc u p9 now).overallTasteRating = .num (9 / 2)
      have hrat : (createdDoc u p9 now).overallTasteRating
          = JsVal.num p9.overallTasteRating := rfl
      rw [hrat, h9]
      simp only [normalizeOverall]
      rw [if_pos (by norm_num : (5:Rat) < 9)]
  · exact listToCoffee_mem_getCoffees
      (List.mem_append_right store (by simp)) rfl
  · intro s b c hc hid
    rcases mem_getCoffees hc with ⟨id, data, hmem, -, hceq⟩
    subst hceq
    have hid2 : id = newId := hid
    subst hid2
    rcases List.mem_append.mp hmem with hmem1 | hmem2
    · exact absurd rfl (hfresh (id, data) hmem1)
    · have hdata : data = createdDoc u p3 now := by simpa using hmem2
      subst hdata
      show normalizeOverall (createdDoc u p3 now).overallTasteRating = .num 3
      have hrat : (createdDoc u p3 now).overallTasteRating
          = JsVal.num p3.overallTasteRating := rfl
      rw [hrat, h3]
      simp only [normalizeOverall]
      rw [if_neg (by norm_num : ¬ ((5:Rat) < 3))]
  · exact listToCoffee_mem_getCoffees
      (List.mem_append_right store (by simp)) rfl

/-- Witness for C8: creation into an empty store with ratings 9 and 3. -/
theorem create_rating_read_back_witness :
    (listToCoffee "id1" (createdDoc "u1" insert9 0)).overallTasteRating
      = JsVal.num (9 / 2) ∧
    (listToCoffee "id1" (createdDoc "u1" insert3 0)).overallTasteRating
      = JsVal.num 3 := by
  obtain ⟨h9c, h9m, h3c, h3m⟩ :=
    create_rating_read_back [] "u1" "id1" insert9 insert3 0 (by simp) rfl rfl
  exact ⟨h9c .orderDate none _ h9m rfl, h3c .orderDate none _ h3m rfl⟩

/-- Counterexample for C9: `getCoffees` holds no cache and performs its own
store query on every call — two concurrent callers issue two store list
queries, not one. -/
theorem fetch_dedup_cex :
    (runListCalls [] [("u1", .orderDate, none), ("u1", .orderDate, none)]).length = 2 ∧
    (runListCalls [] [("u1", .orderDate, none), ("u1", .orderDate, none)]).length ≠ 1 := by
  decide

/-- C9 as amended: there is no fetch deduplication — each list call issues
exactly one store query of its own, so `n` callers issue `n` queries. -/
theorem list_fetch_per_call (store : Store)
    (calls : List (String × CoffeeSortKey × Option String)) :
    (runListCalls store calls).length = calls.length := by
  induction calls with
  | nil => rfl
  | cons a rest ih =>
      simp only [runListCalls, List.map_cons, List.flatten_cons, List.length_append]
      have ih2 : ((rest.map
          (fun a => (getCoffeesTraced store a.1 a.2.1 a.2.2).1)).flatten).length
          = rest.length := ih
      rw [ih2]
      simp only [getCoffeesTraced, List.length_cons, List.length_nil, List.length_singleton]
      omega
